import Mathlib

/-!
Verification of the `unordered-pair` library (`src/lib.rs`), a generic
two-element container whose equality and hashing disregard element order.

The Rust tuple struct `UnorderedPair<T>(pub T, pub T)` is embedded as a
Lean structure with fields `fst` (slot `.0`) and `snd` (slot `.1`).

Rust trait bounds are embedded as follows:
- `T: PartialEq` becomes an arbitrary Boolean-valued binary function
  `eqT : T → T → Bool` (Rust's `PartialEq` makes no lawfulness promise,
  e.g. floating-point equality is not reflexive);
- `T: Ord` becomes `[LinearOrder T]`, with Rust's `cmp` embedded as
  Lean's `compare` (Rust's `Ord` contract demands a total order
  consistent with equality, which `LinearOrder` provides);
- `T: Hash` together with a `Hasher` becomes an arbitrary state type `σ`
  and a feeding function `hT : T → σ → σ`: `x.hash(state)` is the state
  transition `s ↦ hT x s`, so feeding `a` then `b` into state `s` yields
  `hT b (hT a s)`.
-/

/-- The tuple struct `UnorderedPair<T>(pub T, pub T)`: two values stored
verbatim in their given positions (`fst` is slot `.0`, `snd` is slot `.1`). -/
structure UnorderedPair (T : Type) where
  fst : T
  snd : T
deriving DecidableEq, Repr

namespace UnorderedPair

/-- `impl PartialEq for UnorderedPair` from `src/lib.rs` lines 62-69:
`(self.0 == other.0 && self.1 == other.1) || (self.0 == other.1 && self.1 == other.0)`,
with the element equality `==` of `T` passed explicitly as `eqT`. -/
def pairEq {T : Type} (eqT : T → T → Bool) (p q : UnorderedPair T) : Bool :=
  (eqT p.fst q.fst && eqT p.snd q.snd) || (eqT p.fst q.snd && eqT p.snd q.fst)

/-- `UnorderedPair::into_ordered_tuple` from `src/lib.rs` lines 39-46:
`match first.cmp(&second) { Greater => (second, first), _ => (first, second) }`. -/
def into_ordered_tuple {T : Type} [LinearOrder T] (p : UnorderedPair T) : T × T :=
  match compare p.fst p.snd with
  | .gt => (p.snd, p.fst)
  | _ => (p.fst, p.snd)

/-- `impl From<(T, T)> for UnorderedPair<T>` from `src/lib.rs` lines 49-53:
`UnorderedPair(tuple.0, tuple.1)`. -/
def fromTuple {T : Type} (tuple : T × T) : UnorderedPair T :=
  ⟨tuple.1, tuple.2⟩

/-- `impl From<UnorderedPair<T>> for (T, T)` from `src/lib.rs` lines 55-59:
`(pair.0, pair.1)`. -/
def toTuple {T : Type} (pair : UnorderedPair T) : T × T :=
  (pair.fst, pair.snd)

/-- `impl Hash for UnorderedPair` from `src/lib.rs` lines 72-93:
`match first.cmp(second) { Greater => { second.hash(state); first.hash(state) }
_ => { first.hash(state); second.hash(state) } }`.
Feeding `a` then `b` into hasher state `s` is `hT b (hT a s)`. -/
def pairHash {T σ : Type} [LinearOrder T] (hT : T → σ → σ)
    (p : UnorderedPair T) (s : σ) : σ :=
  match compare p.fst p.snd with
  | .gt => hT p.fst (hT p.snd s)
  | _ => hT p.snd (hT p.fst s)

end UnorderedPair

/-- A model of `f32` restricted to what the NaN test exercises: a value is
either `nan` or a finite rational. Only its (non-reflexive) equality matters. -/
inductive F32 : Type where
  | nan : F32
  | finite : ℚ → F32
deriving DecidableEq

/-- IEEE-754 `==` on the `F32` model: `NaN` compares unequal to everything,
itself included; finite values compare by numeric value. -/
def f32BEq : F32 → F32 → Bool
  | .nan, _ => false
  | _, .nan => false
  | .finite a, .finite b => a == b

/-- Hashing via the canonical ordered tuple, written from the refinement
claim's words: compute `(u, v) = into_ordered_tuple p` and feed `u` to the
hasher first, then `v`. To be compared with `pairHash`, which is embedded
from the source. -/
def orderedTupleHash {T σ : Type} [LinearOrder T] (hT : T → σ → σ)
    (p : UnorderedPair T) (s : σ) : σ :=
  hT (UnorderedPair.into_ordered_tuple p).2
    (hT (UnorderedPair.into_ordered_tuple p).1 s)

/-- Modelled from the spec: `Iterate` is absent from `src/lib.rs`; the spec
describes a lazy iterator yielding exactly the two elements in stored
positional order (first, then second). State of such an iterator: both
elements pending, only the second pending, or exhausted. The owned,
immutable-reference and mutable-reference variants all coincide in a pure
embedding, since all three visit the same two elements in the same order. -/
inductive PairIterState (T : Type) where
  | both : T → T → PairIterState T
  | last : T → PairIterState T
  | done : PairIterState T

/-- Modelled from the spec: one `next()` step of the iterator — yields the
first stored element, then the second, then signals exhaustion. -/
def iterNext {T : Type} : PairIterState T → Option (T × PairIterState T)
  | .both a b => some (a, .last b)
  | .last b => some (b, .done)
  | .done => none

/-- Modelled from the spec: `IntoIterator` on a fresh pair starts with both
stored elements pending, first-stored element up front. -/
def intoIter {T : Type} (p : UnorderedPair T) : PairIterState T :=
  .both p.fst p.snd

/-- Drives the iterator up to `fuel` steps, collecting the yielded items in
order (the lazy sequence, made finite by fuel). -/
def collectIter {T : Type} : ℕ → PairIterState T → List T
  | 0, _ => []
  | n + 1, st =>
    match iterNext st with
    | none => []
    | some (x, st2) => x :: collectIter n st2

/-- A concrete hasher over state `ℕ` used to instantiate witnesses: the usual
`31 * state + value` accumulator. -/
def natAccumHash (x : ℕ) (s : ℕ) : ℕ :=
  31 * s + x

open UnorderedPair in
/-- Claim C3: for every element type `T` with equality `eqT` and all pairs
`self` and `other`, `eq` returns `true` if and only if
(`self.0 == other.0` and `self.1 == other.1`) or
(`self.0 == other.1` and `self.1 == other.0`). -/
theorem pairEq_iff_componentwise {T : Type} (eqT : T → T → Bool)
    (self other : UnorderedPair T) :
    pairEq eqT self other = true ↔
      ((eqT self.fst other.fst = true ∧ eqT self.snd other.snd = true) ∨
       (eqT self.fst other.snd = true ∧ eqT self.snd other.fst = true)) := by
  simp [pairEq, Bool.or_eq_true, Bool.and_eq_true]

open UnorderedPair in
/-- Claim C6: converting the pair built from `(a, b)` back to a tuple yields
exactly `(a, b)` in stored positional order, and `fromTuple (a, b)` stores
`a` and `b` verbatim, identical to direct construction `UnorderedPair.mk a b`. -/
theorem toTuple_fromTuple_roundtrip {T : Type} (a b : T) :
    toTuple (fromTuple (a, b)) = (a, b) ∧
      fromTuple (a, b) = UnorderedPair.mk a b := by
  constructor <;> rfl

open UnorderedPair in
/-- Claim C7: with the non-reflexive `f32` equality, the pair `(NaN, 1.3)`
compares unequal to the pair `(1.3, NaN)` even though both are built from the
same element values (test `partial_eq_nan`, `src/lib.rs` lines 113-118). -/
theorem pairEq_nan_false :
    pairEq f32BEq ⟨F32.nan, F32.finite (13/10)⟩ ⟨F32.finite (13/10), F32.nan⟩
      = false := by
  decide

open UnorderedPair in
/-- Helper: `pairHash` is invariant under swapping the two stored elements.
Shared by the symmetry and refinement results below. -/
theorem pairHash_swap_aux {T σ : Type} [LinearOrder T] (hT : T → σ → σ)
    (x y : T) (s : σ) :
    pairHash hT ⟨x, y⟩ s = pairHash hT ⟨y, x⟩ s := by
  rcases lt_trichotomy x y with h | h | h
  · have hc : compare x y = Ordering.lt := compare_lt_iff_lt.2 h
    have hc2 : compare y x = Ordering.gt := compare_gt_iff_gt.2 h
    simp [pairHash, hc, hc2]
  · subst h
    rfl
  · have hc : compare x y = Ordering.gt := compare_gt_iff_gt.2 h
    have hc2 : compare y x = Ordering.lt := compare_lt_iff_lt.2 h
    simp [pairHash, hc, hc2]

open UnorderedPair in
/-- Claim C1 (counterexample): with the non-reflexive `f32` equality, taking
`x = NaN` and `y = 0.0`, the pair `(x, y)` does not compare equal to the pair
`(y, x)`, so the swap-equality does not hold for every type supporting
equality. -/
theorem pairEq_swap_fails_for_nan :
    pairEq f32BEq ⟨F32.nan, F32.finite 0⟩ ⟨F32.finite 0, F32.nan⟩ = false := by
  decide

open UnorderedPair in
/-- Claim C1 (amended): for every element type `T` whose equality `eqT` is
reflexive, and all values `x`, `y`, the pair `(x, y)` compares equal to the
pair `(y, x)`. -/
theorem pairEq_swap_of_reflexive {T : Type} (eqT : T → T → Bool)
    (hrefl : ∀ a, eqT a a = true) (x y : T) :
    pairEq eqT ⟨x, y⟩ ⟨y, x⟩ = true := by
  simp [pairEq, hrefl]

open UnorderedPair in
/-- Claim C1 (witness): the amended claim at `T = Bool`, `x = true`,
`y = false`. -/
theorem pairEq_swap_of_reflexive_witness :
    pairEq (fun a b : Bool => a == b) ⟨true, false⟩ ⟨false, true⟩ = true :=
  pairEq_swap_of_reflexive (fun a b : Bool => a == b) (by decide) true false

open UnorderedPair in
/-- Claim C2: for every element type `T` with a total order, every hasher
(state type `σ`, feeding function `hT`), every starting state `s` and all
values `x`, `y`, hashing the pair `(x, y)` and hashing the pair `(y, x)`
produce identical hasher results. -/
theorem pairHash_swap_invariant {T σ : Type} [LinearOrder T] (hT : T → σ → σ)
    (x y : T) (s : σ) :
    pairHash hT ⟨x, y⟩ s = pairHash hT ⟨y, x⟩ s :=
  pairHash_swap_aux hT x y s

open UnorderedPair in
/-- Claim C4: `into_ordered_tuple` returns the two elements as
`(min, max)` under `T`'s comparison, agrees on the pair and its swap, and
when the first stored element is not greater than the second (ties
included) it returns the elements in stored order `(a, b)`. -/
theorem into_ordered_tuple_spec {T : Type} [LinearOrder T] (a b : T) :
    into_ordered_tuple ⟨a, b⟩ = (min a b, max a b) ∧
      into_ordered_tuple (⟨a, b⟩ : UnorderedPair T)
        = into_ordered_tuple ⟨b, a⟩ ∧
      into_ordered_tuple (⟨a, b⟩ : UnorderedPair T)
        = if a ≤ b then (a, b) else (b, a) := by
  rcases lt_trichotomy a b with h | h | h
  · have hc : compare a b = Ordering.lt := compare_lt_iff_lt.2 h
    have hc2 : compare b a = Ordering.gt := compare_gt_iff_gt.2 h
    simp [into_ordered_tuple, hc, hc2, min_eq_left h.le, max_eq_right h.le,
      h.le]
  · subst h
    simp [into_ordered_tuple, compare_eq_iff_eq.2 rfl]
  · have hc : compare a b = Ordering.gt := compare_gt_iff_gt.2 h
    have hc2 : compare b a = Ordering.lt := compare_lt_iff_lt.2 h
    simp [into_ordered_tuple, hc, hc2, min_eq_right h.le, max_eq_left h.le,
      not_le.2 h]

open UnorderedPair in
/-- Claim C5: `pairHash` feeds the smaller element to the hasher first and
the larger second; when the comparison of the first stored element against
the second is not greater (`x ≤ y`, ties included), the first stored element
is fed first. -/
theorem pairHash_feeds_sorted {T σ : Type} [LinearOrder T] (hT : T → σ → σ)
    (x y : T) (s : σ) :
    pairHash hT ⟨x, y⟩ s = hT (max x y) (hT (min x y) s) ∧
      pairHash hT ⟨x, y⟩ s
        = if x ≤ y then hT y (hT x s) else hT x (hT y s) := by
  rcases lt_trichotomy x y with h | h | h
  · have hc : compare x y = Ordering.lt := compare_lt_iff_lt.2 h
    simp [pairHash, hc, min_eq_left h.le, max_eq_right h.le, h.le]
  · subst h
    simp [pairHash, compare_eq_iff_eq.2 rfl]
  · have hc : compare x y = Ordering.gt := compare_gt_iff_gt.2 h
    simp [pairHash, hc, min_eq_right h.le, max_eq_left h.le, not_le.2 h]

open UnorderedPair in
/-- Claim C9: whenever the element equality `eqT` is an equivalence relation
(reflexive, symmetric, transitive), the pair equality `pairEq eqT` is also an
equivalence relation: reflexive, symmetric and, in particular, transitive. -/
theorem pairEq_equivalence {T : Type} (eqT : T → T → Bool)
    (hrefl : ∀ a, eqT a a = true)
    (hsymm : ∀ a b, eqT a b = true → eqT b a = true)
    (htrans : ∀ a b c, eqT a b = true → eqT b c = true → eqT a c = true) :
    (∀ p : UnorderedPair T, pairEq eqT p p = true) ∧
      (∀ p q : UnorderedPair T,
        pairEq eqT p q = true → pairEq eqT q p = true) ∧
      (∀ p q r : UnorderedPair T,
        pairEq eqT p q = true → pairEq eqT q r = true →
          pairEq eqT p r = true) := by
  refine ⟨fun p => ?_, fun p q hpq => ?_, fun p q r hpq hqr => ?_⟩
  · simp [pairEq, hrefl]
  · simp only [pairEq, Bool.or_eq_true, Bool.and_eq_true] at hpq ⊢
    rcases hpq with ⟨h1, h2⟩ | ⟨h1, h2⟩
    · exact Or.inl ⟨hsymm _ _ h1, hsymm _ _ h2⟩
    · exact Or.inr ⟨hsymm _ _ h2, hsymm _ _ h1⟩
  · simp only [pairEq, Bool.or_eq_true, Bool.and_eq_true] at hpq hqr ⊢
    rcases hpq with ⟨h1, h2⟩ | ⟨h1, h2⟩ <;> rcases hqr with ⟨h3, h4⟩ | ⟨h3, h4⟩
    · exact Or.inl ⟨htrans _ _ _ h1 h3, htrans _ _ _ h2 h4⟩
    · exact Or.inr ⟨htrans _ _ _ h1 h3, htrans _ _ _ h2 h4⟩
    · exact Or.inr ⟨htrans _ _ _ h1 h4, htrans _ _ _ h2 h3⟩
    · exact Or.inl ⟨htrans _ _ _ h1 h4, htrans _ _ _ h2 h3⟩

open UnorderedPair in
/-- Claim C9 (witness): the equivalence conclusion at `T = Bool` with the
decidable Boolean equality, whose reflexivity, symmetry and transitivity are
checked by evaluation. -/
theorem pairEq_equivalence_witness :
    (∀ p : UnorderedPair Bool, pairEq (fun a b : Bool => a == b) p p = true) ∧
      (∀ p q : UnorderedPair Bool,
        pairEq (fun a b : Bool => a == b) p q = true →
          pairEq (fun a b : Bool => a == b) q p = true) ∧
      (∀ p q r : UnorderedPair Bool,
        pairEq (fun a b : Bool => a == b) p q = true →
          pairEq (fun a b : Bool => a == b) q r = true →
            pairEq (fun a b : Bool => a == b) p r = true) :=
  pairEq_equivalence (fun a b : Bool => a == b) (by decide) (by decide)
    (by decide)

open UnorderedPair in
/-- Claim C10: hashing a pair directly coincides, on every start state, with
first computing the canonical ordered tuple and then feeding its components
in order; consequently pairs that compare equal under `pairEq` (with element
equality the one the order is consistent with) hash identically. -/
theorem pairHash_refines_orderedTupleHash {T σ : Type} [LinearOrder T]
    (hT : T → σ → σ) :
    (∀ (p : UnorderedPair T) (s : σ), pairHash hT p s = orderedTupleHash hT p s) ∧
      (∀ (p q : UnorderedPair T) (s : σ),
        pairEq (fun a b : T => decide (a = b)) p q = true →
          pairHash hT p s = pairHash hT q s) := by
  constructor
  · intro p s
    rcases hc : compare p.fst p.snd with _ | _ | _ <;>
      simp [pairHash, orderedTupleHash, into_ordered_tuple, hc]
  · intro p q s hpq
    simp only [pairEq, Bool.or_eq_true, Bool.and_eq_true,
      decide_eq_true_eq] at hpq
    rcases hpq with ⟨h1, h2⟩ | ⟨h1, h2⟩
    · have : p = q := by
        cases p; cases q; simp_all
      rw [this]
    · have hp : p = ⟨q.snd, q.fst⟩ := by
        cases p; cases q; simp_all
      rw [hp, pairHash_swap_aux]

open UnorderedPair in
/-- Claim C10 (witness): the equal-hash consequence at `T = σ = ℕ` with the
concrete accumulator hasher, for the swapped pairs `(2, 1)` and `(1, 2)`. -/
theorem pairHash_refines_orderedTupleHash_witness :
    pairHash natAccumHash ⟨2, 1⟩ 0 = pairHash natAccumHash ⟨1, 2⟩ 0 :=
  (pairHash_refines_orderedTupleHash natAccumHash).2 ⟨2, 1⟩ ⟨1, 2⟩ 0 (by decide)

open UnorderedPair in
/-- Claim C8: iterating a fresh pair with enough fuel yields exactly the two
stored elements in positional order (first, then second), a sequence of
length exactly 2. -/
theorem collectIter_intoIter_spec {T : Type} (p : UnorderedPair T) (fuel : ℕ)
    (hfuel : 2 ≤ fuel) :
    collectIter fuel (intoIter p) = [p.fst, p.snd] ∧
      (collectIter fuel (intoIter p)).length = 2 := by
  obtain ⟨n, rfl⟩ : ∃ n, fuel = n + 2 := ⟨fuel - 2, by omega⟩
  have hdone : ∀ m : ℕ, collectIter m (PairIterState.done : PairIterState T)
      = [] := by
    intro m
    cases m <;> simp [collectIter, iterNext]
  simp [collectIter, iterNext, intoIter, hdone]

open UnorderedPair in
/-- Claim C8 (witness): the iteration result for the pair `(1, 2)` over `ℕ`
with fuel 2. -/
theorem collectIter_intoIter_spec_witness :
    collectIter 2 (intoIter (⟨1, 2⟩ : UnorderedPair ℕ)) = [1, 2] ∧
      (collectIter 2 (intoIter (⟨1, 2⟩ : UnorderedPair ℕ))).length = 2 :=
  collectIter_intoIter_spec ⟨1, 2⟩ 2 (by decide)
